import Mathlib

/-!
Shallow embedding of the configuration draft/commit session core of the
repository (source: `src/streamlit_app.py`, with `apply_settings_to_variables`
also present identically in `src/app.py`).

Modelling conventions:
* Python exceptions are modelled by the `PyError` type and fallible code
  returns `Except PyError _`.
* Python numbers are modelled by `PyNum`: an `int` is an `Int`, a `float` is a
  rational (every float arising in the claims is exactly representable, so the
  rational model is faithful for the equalities compared by the code).
* Python dicts that hold the configuration are modelled as association lists
  in insertion order (`Config`); Python guarantees unique keys, which appears
  as a `Nodup` hypothesis where a theorem needs it.
* File-system effects are modelled by passing the relevant file contents in
  and returning the performed effects (files written/removed, UI error
  messages) as data.
-/

namespace StreamlitApp

/-- Model of the Python exceptions that the embedded code can raise. -/
inductive PyError where
  | keyError
  | typeError
  | valueError
  | indexError
  | attributeError
  | jsonDecodeError
deriving DecidableEq

instance {ε α : Type} [DecidableEq ε] [DecidableEq α] : DecidableEq (Except ε α) := fun a b =>
  match a, b with
  | .ok x, .ok y =>
    if h : x = y then .isTrue (by rw [h]) else .isFalse (fun hc => h (Except.ok.injEq .. ▸ hc))
  | .error x, .error y =>
    if h : x = y then .isTrue (by rw [h]) else .isFalse (fun hc => h (Except.error.injEq .. ▸ hc))
  | .ok _, .error _ => .isFalse (fun hc => Except.noConfusion hc)
  | .error _, .ok _ => .isFalse (fun hc => Except.noConfusion hc)

/-- A Python number: either an `int` or a `float` (modelled exactly). -/
inductive PyNum where
  | int (n : Int)
  | float (q : ℚ)
deriving DecidableEq

/-- Python `float(x)` on a number: an `int` is converted, a `float` kept.
(The values compared in this development are all exactly representable.) -/
def PyNum.toFloat : PyNum → ℚ
  | .int n => (n : ℚ)
  | .float q => q

/-- Python `==` between two numbers: numeric comparison (int/float coercion). -/
def pyNumEq (a b : PyNum) : Bool := decide (a.toFloat = b.toFloat)

/-- Python `==` between two lists of numbers: lengths equal and elements
pairwise `==` (numeric, coercing). -/
def pyListEq (xs ys : List PyNum) : Bool :=
  decide (xs.length = ys.length) && (List.zip xs ys).all fun p => pyNumEq p.1 p.2

/-- The `input` field of a variable record: a scalar number or a list. -/
inductive PyInput where
  | num (v : PyNum)
  | list (l : List PyNum)
deriving DecidableEq

/-- One variable record of the configuration mapping
(`category`/`method`/`input`/`quarters` fields, per `src/streamlit_app.py`). -/
structure VarData where
  category : String
  method : String
  input : PyInput
  quarters : Option String
deriving DecidableEq

/-- A configuration: Python dict from variable name to record, modelled as an
association list in insertion order. -/
abbrev Config := List (String × VarData)

/-- Python dict lookup `d[n]` (first binding of the key). -/
def lookupVar (d : Config) (n : String) : Option VarData :=
  match d with
  | [] => none
  | (k, v) :: rest => if k = n then some v else lookupVar rest n

/-- The `input` comparison performed by `get_changed_variables`
(`src/streamlit_app.py:156-161`): when the committed value is a list,
Python `curr["input"] != orig["input"]`; otherwise
`float(curr["input"]) != float(orig["input"])` (which raises `TypeError`
when the original value is a list). -/
def inputChanged (curr orig : PyInput) : Except PyError Bool :=
  match curr with
  | .list xs =>
    .ok (match orig with
      | .list ys => !(pyListEq xs ys)
      | .num _ => true)
  | .num a =>
    match orig with
    | .num b => .ok (!(pyNumEq a b))
    | .list _ => .error .typeError

/-- Numeric equality of two `input` values, stating the amended comparison
law in the spec's terms (not the code's): scalars are equal when their
floating-point values coincide; sequences are equal when they have the same
length and are element-wise numerically equal (coercing ints and floats); a
scalar never equals a sequence.  Used only to state claim C1's amended law,
which is then proven against `get_changed_variables`. -/
def inputNumEq : PyInput → PyInput → Prop
  | .num a, .num b => a.toFloat = b.toFloat
  | .list xs, .list ys => xs.length = ys.length ∧ ∀ p ∈ xs.zip ys, p.1.toFloat = p.2.toFloat
  | _, _ => False

/-- `get_changed_variables(current_data, original_data)`
(`src/streamlit_app.py:144-168`): walks the keys of `current_data`, looks each
one up in `original_data` (Python raises `KeyError` if absent), and collects
the names whose `method`, `quarters` or `input` differ.  The Python result is
a `set`; membership and emptiness are what the claims use, so the model
returns the names in iteration order. -/
def get_changed_variables (current_data original_data : Config) : Except PyError (List String) :=
  match current_data with
  | [] => .ok []
  | (var_name, curr) :: rest =>
    match lookupVar original_data var_name with
    | none => .error .keyError
    | some orig =>
      match inputChanged curr.input orig.input with
      | .error e => .error e
      | .ok input_changed =>
        match get_changed_variables rest original_data with
        | .error e => .error e
        | .ok changed =>
          if curr.method ≠ orig.method ∨ curr.quarters ≠ orig.quarters ∨ input_changed then
            .ok (var_name :: changed)
          else
            .ok changed

/-! ## Quarter codec: `quarter_to_date` and `generate_quarters`
(`src/streamlit_app.py:103-124`). -/

/-- Numeric value of a digit character. -/
def charDigit (c : Char) : Int := (c.toNat : Int) - 48

/-- Value of a digit string (most significant first). -/
def digitsVal (l : List Char) : Int := l.foldl (fun a c => a * 10 + charDigit c) 0

/-- Python `int(s)` on a string: an optional `-` sign followed by at least one
digit yields the value, anything else raises `ValueError` (modelled as
`none`).  (Python additionally strips whitespace and allows `+`/underscores;
no input in this development uses those forms.) -/
def pyIntChars (l : List Char) : Option Int :=
  if l.head? = some '-' then
    if l.tail ≠ [] ∧ l.tail.all Char.isDigit then some (-(digitsVal l.tail)) else none
  else
    if l ≠ [] ∧ l.all Char.isDigit then some (digitsVal l) else none

/-- A `datetime.datetime(year, month, 1)` value (the day is always 1 here). -/
structure Date where
  year : Int
  month : Int
deriving DecidableEq

/-- The `datetime(year, month, 1)` constructor: raises `ValueError` unless
`datetime.MINYEAR = 1 ≤ year ≤ 9999 = datetime.MAXYEAR` and `1 ≤ month ≤ 12`. -/
def datetime (year month : Int) : Except PyError Date :=
  if 1 ≤ year ∧ year ≤ 9999 ∧ 1 ≤ month ∧ month ≤ 12 then
    .ok ⟨year, month⟩
  else
    .error .valueError

/-- Python `<=` on two first-of-month datetimes: lexicographic on (year, month). -/
def dateLe (a b : Date) : Bool :=
  decide (a.year < b.year) || (decide (a.year = b.year) && decide (a.month ≤ b.month))

/-- The inner `quarter_to_date` of `generate_quarters`
(`src/streamlit_app.py:105-109`): `year = int(s[:4])`,
`quarter = int(s[5])` (raising `IndexError` when the string is too short),
`month = (quarter - 1) * 3 + 1`, then `datetime(year, month, 1)`. -/
def quarter_to_dateL (quarter_str : List Char) : Except PyError Date :=
  match pyIntChars (quarter_str.take 4) with
  | none => .error .valueError
  | some year =>
    match quarter_str.get? 5 with
    | none => .error .indexError
    | some c =>
      match pyIntChars [c] with
      | none => .error .valueError
      | some quarter => datetime year ((quarter - 1) * 3 + 1)

/-- `quarter_to_date` on a Python string. -/
def quarter_to_date (quarter_str : String) : Except PyError Date :=
  quarter_to_dateL quarter_str.toList

/-- The label `f"{current_date.year}Q{quarter}"` appended each iteration, with
`quarter = (current_date.month - 1) // 3 + 1` (`src/streamlit_app.py:117-118`). -/
def quarterLabel (d : Date) : String :=
  toString d.year ++ "Q" ++ toString ((d.month - 1) / 3 + 1)

/-- The advance step of the loop (`src/streamlit_app.py:119-122`): month 10 or
later rolls to January of the next year, otherwise three months are added;
either way through the raising `datetime` constructor. -/
def nextDate (d : Date) : Except PyError Date :=
  if d.month ≥ 10 then datetime (d.year + 1) 1 else datetime d.year (d.month + 3)

/-- The `while current_date <= end_date` loop of `generate_quarters`, written
with an explicit iteration budget so that it is structurally recursive and
computable by the kernel.  `qloopF_fuel_irrelevant` below shows the budget
used by `generate_quarters` is always sufficient, so the budget never alters
the result: with enough fuel this is exactly the Python loop. -/
def qloopF : Nat → Date → Date → Except PyError (List String)
  | 0, _, _ => .ok []
  | fuel + 1, end_date, current_date =>
    if dateLe current_date end_date then
      match nextDate current_date with
      | .error e => .error e
      | .ok nxt =>
        match qloopF fuel end_date nxt with
        | .error e => .error e
        | .ok rest => .ok (quarterLabel current_date :: rest)
    else
      .ok []

/-- Total month index of a date, used to budget the loop. -/
def dtotal (d : Date) : Int := d.year * 12 + d.month

/-- Iteration budget: one iteration per month from start to end, plus one. -/
def fuelFor (start_date end_date : Date) : Nat :=
  (dtotal end_date + 1 - dtotal start_date).toNat

/-- `generate_quarters(start, end)` (`src/streamlit_app.py:103-124`): parse
both labels (any exception propagates), then run the quarter loop. -/
def generate_quarters (start stop : String) : Except PyError (List String) :=
  match quarter_to_date start with
  | .error e => .error e
  | .ok start_date =>
    match quarter_to_date stop with
    | .error e => .error e
    | .ok end_date => qloopF (fuelFor start_date end_date) end_date start_date

/-! ## Spec-side definitions used to state the quarter-codec claims.
These follow the words of the spec (`^\d{4}Q[1-4]$`, quarter distance), not
the code, and exist only so the claims can be stated. -/

/-- The spec's validity regex for quarter labels, on the character list:
four digits, a literal `Q`, then a quarter digit 1-4. -/
def matchesLabelL : List Char → Bool
  | [a, b, c, d, q, n] =>
    a.isDigit && b.isDigit && c.isDigit && d.isDigit && (q = 'Q') &&
      (n = '1' || n = '2' || n = '3' || n = '4')
  | _ => false

/-- The spec's validity regex `^\d{4}Q[1-4]$` for quarter labels. -/
def matchesLabel (s : String) : Bool := matchesLabelL s.toList

/-- Year denoted by (the first four characters of) a valid label. -/
def labelYear (s : String) : Int := (pyIntChars (s.toList.take 4)).getD 0

/-- Quarter number denoted by (the sixth character of) a valid label. -/
def labelQuarter (s : String) : Int :=
  match s.toList.get? 5 with
  | some c => (pyIntChars [c]).getD 0
  | none => 0

/-- Absolute quarter index of a valid label; differences of these are the
spec's integer quarter-distance. -/
def quarterIdx (s : String) : Int := 4 * labelYear s + (labelQuarter s - 1)

/-- The months that can start a quarter: the loop of `generate_quarters` only
ever visits dates whose month is one of these. -/
def qmonth (m : Int) : Prop := m = 1 ∨ m = 4 ∨ m = 7 ∨ m = 10

/-! ## Configuration store: `load_spec_file` (`src/streamlit_app.py:126-133`).
The baseline file is passed in as data: `none` when the file does not exist,
`some (.error e)` when it exists but `json.load` raises, `some (.ok cfg)`
when it parses to the configuration `cfg`. -/

/-- Result of `load_spec_file`: the returned configuration together with the
`st.error` messages displayed, or an uncaught exception. -/
def load_spec_file (file : Option (Except PyError Config)) : Except PyError (Config × List String) :=
  match file with
  | none => .ok ([], ["Baseline specification (dummy_spec.json) not found!"])
  | some (.error e) => .error e
  | some (.ok cfg) => .ok (cfg, [])

/-! ## Session recovery: `check_for_temp_file` (`src/streamlit_app.py:14-75`)
and the session seeding in `main` (`src/streamlit_app.py:355-364`). -/

/-- Observable outcome of one run of `check_for_temp_file`. -/
structure CheckResult where
  /-- `some r`: the function returned `r`; `none`: the run was interrupted
  (`st.stop` while waiting for the choice, or `st.rerun` after a click). -/
  ret : Option (Option Config)
  /-- whether `temp_config.json` was removed during this run -/
  tempRemoved : Bool
  /-- whether the resume-or-discard card was rendered -/
  promptShown : Bool
  /-- `st.session_state.show_prompt` after the run (`none` = still unset) -/
  showPromptAfter : Option Bool
  /-- `st.session_state.temp_data` after the run (`none` = still unset) -/
  tempDataAfter : Option (Option Config)
deriving DecidableEq

/-- `check_for_temp_file()`: `tempFile` is the content of `temp_config.json`
(`none` when absent, `some (.error e)` when present but not valid JSON),
`showPrompt0`/`tempData0` the session-state entries at entry, and
`clickLoad`/`clickFresh` the button events of this run. -/
def check_for_temp_file (tempFile : Option (Except PyError Config))
    (showPrompt0 : Option Bool) (clickLoad clickFresh : Bool)
    (tempData0 : Option (Option Config)) : CheckResult :=
  match tempFile with
  | none => ⟨some none, false, false, showPrompt0, tempData0⟩
  | some (.error _) => ⟨some none, true, false, showPrompt0, tempData0⟩
  | some (.ok temp_data) =>
    let sp := showPrompt0.getD true
    if sp then
      if clickLoad then ⟨none, false, true, some false, some (some temp_data)⟩
      else if clickFresh then ⟨none, true, true, some false, some none⟩
      else ⟨none, false, true, some true, tempData0⟩
    else ⟨some (tempData0.getD none), false, false, some sp, tempData0⟩

/-- The session seeding in `main` (`src/streamlit_app.py:355-364`): when
`check_for_temp_file` returned data, it becomes `st.session_state.data` and a
fresh `load_spec_file()` result becomes `original_data`; when it returned
`None`, both are seeded from `load_spec_file()` (`deepcopy` is a value copy).
`spec` is the configuration loaded by `load_spec_file`; the result is
`some (data, original_data)`, or `none` when the run was interrupted. -/
def init_session (checkRet : Option (Option Config)) (spec : Config) :
    Option (Config × Config) :=
  match checkRet with
  | none => none
  | some (some temp_data) => some (temp_data, spec)
  | some none => some (spec, spec)

/-! ## Final save: `save_final_config` (`src/streamlit_app.py:85-101`). -/

/-- Observable outcome of `save_final_config`. -/
structure SaveResult where
  /-- the filename returned, or `none` (Python `None`) on failure -/
  ret : Option String
  /-- the artifact file completely written, if any -/
  written : Option String
  /-- whether `temp_config.json` exists after the call -/
  tempAfter : Bool
  /-- the `st.error` messages displayed -/
  uiErrors : List String
deriving DecidableEq

/-- `save_final_config(data)`: writes `config_<timestamp>.json`, then removes
the temp file; on a write exception (`writeErr = some msg`) it displays the
error and returns `None`, leaving the temp file as it was.  `timestamp` is
`datetime.now().strftime("%Y%m%d_%H%M%S")`, passed in as data; `tempExists`
is whether `temp_config.json` exists at entry. -/
def save_final_config (writeErr : Option String) (timestamp : String)
    (tempExists : Bool) : SaveResult :=
  let filename := "config_" ++ timestamp ++ ".json"
  match writeErr with
  | none => ⟨some filename, some filename, false, []⟩
  | some msg => ⟨none, none, tempExists, ["Error saving configuration: " ++ msg]⟩

/-! ## Batch mutator: `apply_settings_to_variables`
(`src/streamlit_app.py:170-180`, identical in `src/app.py:12-22`).
List objects live in an explicit heap so that the sharing/copying behaviour of
`settings["input"].copy()` is visible: a variable's quarterly `input` is a
reference into the heap, and `.copy()` allocates a fresh cell. -/

/-- The heap of Python list objects. -/
structure Heap where
  cells : List (List PyNum)
deriving DecidableEq

/-- Dereference a list object. -/
def Heap.getCell (h : Heap) (r : Nat) : List PyNum := h.cells.getD r []

/-- Allocate a fresh list object holding `v`; returns the new heap and the
reference to the new cell. -/
def Heap.alloc (h : Heap) (v : List PyNum) : Heap × Nat :=
  (⟨h.cells ++ [v]⟩, h.cells.length)

/-- In-place element assignment `lst[i] = v` on the list object `r`
(a later per-variable edit of one variable's quarterly values). -/
def Heap.setElem (h : Heap) (r i : Nat) (v : PyNum) : Heap :=
  ⟨h.cells.set r ((h.cells.getD r []).set i v)⟩

/-- A variable's `input` in the heap model: a scalar, or a reference to a
list object. -/
inductive InputRef where
  | num (v : PyNum)
  | listRef (r : Nat)
deriving DecidableEq

/-- A variable record in the heap model. -/
structure VarDataH where
  category : String
  method : String
  input : InputRef
  quarters : Option String
deriving DecidableEq

/-- A configuration in the heap model. -/
abbrev ConfigH := List (String × VarDataH)

/-- Dict lookup in the heap model. -/
def lookupVarH (d : ConfigH) (n : String) : Option VarDataH :=
  match d with
  | [] => none
  | (k, v) :: rest => if k = n then some v else lookupVarH rest n

/-- Overwrite the record bound to `n` (Python mutates the dict entry). -/
def updateVar (d : ConfigH) (n : String) (f : VarDataH → VarDataH) : ConfigH :=
  d.map fun p => if p.1 = n then (p.1, f p.2) else p

/-- The settings payload `{method, input, quarters}` built by the caller. -/
structure Settings where
  method : String
  input : InputRef
  quarters : Option String
deriving DecidableEq

/-- `settings["input"].copy()`: reads the list object behind the reference
(Python `.copy()` of a list is a fresh shallow copy; a scalar has no `.copy`,
raising `AttributeError`). -/
def derefInput (h : Heap) (i : InputRef) : Except PyError (List PyNum) :=
  match i with
  | .listRef r => .ok (h.getCell r)
  | .num _ => .error .attributeError

/-- `apply_settings_to_variables(selected_vars, settings, data)`
(`src/streamlit_app.py:170-180`): for each selected name (raising `KeyError`
if it is not a key of `data` — the model then reports the error and, like the
claims, only describes the success path), set `method`; for
`single_value_fill` assign the settings input as-is and clear `quarters`;
otherwise set `quarters` and assign a fresh copy of the settings list. -/
def apply_settings_to_variables :
    List String → Settings → ConfigH → Heap → Except PyError (ConfigH × Heap)
  | [], _, data, h => .ok (data, h)
  | var_name :: rest, settings, data, h =>
    match lookupVarH data var_name with
    | none => .error .keyError
    | some _ =>
      if settings.method = "single_value_fill" then
        apply_settings_to_variables rest settings
          (updateVar data var_name fun vd => ⟨vd.category, settings.method, settings.input, none⟩) h
      else
        match derefInput h settings.input with
        | .error e => .error e
        | .ok payload =>
          let (h2, r) := h.alloc payload
          apply_settings_to_variables rest settings
            (updateVar data var_name fun vd => ⟨vd.category, settings.method, .listRef r, settings.quarters⟩) h2

/-! # Lemmas and claim theorems -/

lemma pyNumEq_self (a : PyNum) : pyNumEq a a = true := by simp [pyNumEq]

lemma zip_self_all_pyNumEq (l : List PyNum) :
    (List.zip l l).all (fun p => pyNumEq p.1 p.2) = true := by
  induction l with
  | nil => rfl
  | cons a l ih => simpa [List.zip_cons_cons, pyNumEq_self] using ih

lemma pyListEq_self (l : List PyNum) : pyListEq l l = true := by
  simp [pyListEq, zip_self_all_pyNumEq]

lemma inputChanged_self (x : PyInput) : inputChanged x x = .ok false := by
  cases x with
  | num a => simp [inputChanged, pyNumEq_self]
  | list l => simp [inputChanged, pyListEq_self]

lemma get_changed_variables_nil_of_lookup (current original : Config)
    (h : ∀ p ∈ current, lookupVar original p.1 = some p.2) :
    get_changed_variables current original = .ok [] := by
  induction current with
  | nil => rfl
  | cons p rest ih =>
    obtain ⟨n, v⟩ := p
    have h1 : lookupVar original n = some v := h (n, v) (List.mem_cons_self _ _)
    have h2 : get_changed_variables rest original = .ok [] :=
      ih fun q hq => h q (List.mem_cons_of_mem _ hq)
    simp [get_changed_variables, h1, h2, inputChanged_self]

lemma lookupVar_self_of_nodup (cfg : Config) (n : String) (v : VarData)
    (hm : (n, v) ∈ cfg) (hnd : (cfg.map Prod.fst).Nodup) : lookupVar cfg n = some v := by
  induction cfg with
  | nil => cases hm
  | cons p rest ih =>
    obtain ⟨k, w⟩ := p
    rw [List.map_cons, List.nodup_cons] at hnd
    rcases List.mem_cons.mp hm with heq | hmem
    · cases heq
      simp [lookupVar]
    · have hk : k ≠ n := by
        intro he
        apply hnd.1
        rw [he, List.mem_map]
        exact ⟨(n, v), hmem, rfl⟩
      simp [lookupVar, hk, ih hmem hnd.2]

/-- Claim C9: for every configuration `cfg` (a Python dict, hence with
distinct keys), `computeChangedSet(cfg, cfg)` is the empty set. -/
theorem get_changed_variables_refl (cfg : Config) (hnd : (cfg.map Prod.fst).Nodup) :
    get_changed_variables cfg cfg = .ok [] :=
  get_changed_variables_nil_of_lookup cfg cfg fun p hp =>
    lookupVar_self_of_nodup cfg p.1 p.2 (by simpa using hp) hnd

theorem get_changed_variables_refl_witness :
    (([("a", ⟨"c", "single_value_fill", .num (.int 1), none⟩),
       ("b", ⟨"d", "quarterly_values_fill", .list [.int 1, .float 2], some "2024Q1:2024Q2"⟩)] :
        Config).map Prod.fst).Nodup ∧
    get_changed_variables
      [("a", ⟨"c", "single_value_fill", .num (.int 1), none⟩),
       ("b", ⟨"d", "quarterly_values_fill", .list [.int 1, .float 2], some "2024Q1:2024Q2"⟩)]
      [("a", ⟨"c", "single_value_fill", .num (.int 1), none⟩),
       ("b", ⟨"d", "quarterly_values_fill", .list [.int 1, .float 2], some "2024Q1:2024Q2"⟩)] = .ok [] :=
  ⟨by decide, get_changed_variables_refl _ (by decide)⟩

/-- Claim C10: every name in the changed set is a key of the committed
configuration, so a variable present only in the baseline never appears. -/
theorem get_changed_variables_keys (current original : Config) (res : List String)
    (h : get_changed_variables current original = .ok res) :
    ∀ n ∈ res, n ∈ current.map Prod.fst := by
  induction current generalizing res with
  | nil =>
    simp only [get_changed_variables, Except.ok.injEq] at h
    subst h
    simp
  | cons p rest ih =>
    obtain ⟨k, v⟩ := p
    simp only [get_changed_variables] at h
    split at h
    · exact absurd h (by simp)
    · split at h
      · exact absurd h (by simp)
      · split at h
        · exact absurd h (by simp)
        · rename_i changed hr
          have hmem := ih changed hr
          split at h <;>
            (injection h with h; subst h) <;> intro n hn
          · rcases List.mem_cons.mp hn with rfl | hn
            · exact List.mem_cons_self _ _
            · exact List.mem_cons_of_mem _ (hmem n hn)
          · exact List.mem_cons_of_mem _ (hmem n hn)

theorem get_changed_variables_keys_witness :
    get_changed_variables
      [("X", ⟨"c", "single_value_fill", .num (.int 1), none⟩)]
      [("X", ⟨"c", "single_value_fill", .num (.int 2), none⟩),
       ("Y", ⟨"c", "single_value_fill", .num (.int 3), none⟩)] = .ok ["X"] ∧
    ∀ n ∈ (["X"] : List String),
      n ∈ ([("X", (⟨"c", "single_value_fill", .num (.int 1), none⟩ : VarData))].map Prod.fst) :=
  ⟨by decide,
    get_changed_variables_keys
      [("X", ⟨"c", "single_value_fill", .num (.int 1), none⟩)]
      [("X", ⟨"c", "single_value_fill", .num (.int 2), none⟩),
       ("Y", ⟨"c", "single_value_fill", .num (.int 3), none⟩)]
      ["X"] (by decide)⟩

/-- Claim C2: the diff engine raises `KeyError` (rather than treating the
variable as changed) when a variable exists in `committed` but not in
`baseline` — evaluating the code at the failing input. -/
theorem get_changed_variables_missing_key_error :
    get_changed_variables [("X", ⟨"c", "single_value_fill", .num (.int 0), none⟩)] [] =
      .error .keyError := rfl

/-- Claim C1 (counterexample): with the committed `input` of the
`single_value_fill` variable `S` changed from `0` to `0.0` and the committed
`input` of the `quarterly_values_fill` variable `Q` changed from `[0, 0]` to
`[0.0, 0]`, the changed set is empty — in particular `Q` is absent, contrary
to the claim, because Python list equality compares elements with `==`,
which coerces `0.0 == 0` to true. -/
theorem get_changed_variables_list_coercion_counterexample :
    get_changed_variables
      [("S", ⟨"c", "single_value_fill", .num (.float 0), none⟩),
       ("Q", ⟨"c", "quarterly_values_fill", .list [.float 0, .int 0], some "2024Q1:2024Q2"⟩)]
      [("S", ⟨"c", "single_value_fill", .num (.int 0), none⟩),
       ("Q", ⟨"c", "quarterly_values_fill", .list [.int 0, .int 0], some "2024Q1:2024Q2"⟩)] =
      .ok [] := by decide

lemma pyListEq_iff (xs ys : List PyNum) :
    pyListEq xs ys = true ↔
      xs.length = ys.length ∧ ∀ p ∈ xs.zip ys, p.1.toFloat = p.2.toFloat := by
  simp [pyListEq, List.all_eq_true, pyNumEq, decide_eq_true_eq]

lemma inputChanged_false_of_numEq (curr orig : PyInput) (h : inputNumEq curr orig) :
    inputChanged curr orig = .ok false := by
  cases curr with
  | num a =>
    cases orig with
    | num b =>
      have hb : a.toFloat = b.toFloat := h
      simp [inputChanged, pyNumEq, hb]
    | list ys => exact h.elim
  | list xs =>
    cases orig with
    | num b => exact h.elim
    | list ys =>
      have hl : pyListEq xs ys = true := (pyListEq_iff xs ys).2 h
      simp [inputChanged, hl]

lemma get_changed_variables_mem_spec (current original : Config) (res : List String)
    (h : get_changed_variables current original = .ok res) :
    ∀ n ∈ res, ∃ curr orig, (n, curr) ∈ current ∧ lookupVar original n = some orig ∧
      (curr.method ≠ orig.method ∨ curr.quarters ≠ orig.quarters ∨
        inputChanged curr.input orig.input = .ok true) := by
  induction current generalizing res with
  | nil =>
    simp only [get_changed_variables, Except.ok.injEq] at h
    subst h
    simp
  | cons p rest ih =>
    obtain ⟨k, v⟩ := p
    simp only [get_changed_variables] at h
    split at h
    · exact absurd h (by simp)
    · rename_i orig hl
      split at h
      · exact absurd h (by simp)
      · rename_i ic hic
        split at h
        · exact absurd h (by simp)
        · rename_i changed hr
          have hrest := ih changed hr
          split at h
          · rename_i hcond
            injection h with h
            subst h
            intro n hn
            rcases List.mem_cons.mp hn with rfl | hn'
            · refine ⟨v, orig, List.mem_cons_self _ _, hl, ?_⟩
              rcases hcond with hc | hc | hc
              · exact Or.inl hc
              · exact Or.inr (Or.inl hc)
              · rw [hc] at hic
                exact Or.inr (Or.inr hic)
            · obtain ⟨curr', orig', hm, hlo, hcnd⟩ := hrest n hn'
              exact ⟨curr', orig', List.mem_cons_of_mem _ hm, hlo, hcnd⟩
          · injection h with h
            subst h
            intro n hn
            obtain ⟨curr', orig', hm, hlo, hcnd⟩ := hrest n hn
            exact ⟨curr', orig', List.mem_cons_of_mem _ hm, hlo, hcnd⟩

/-- Claim C1 (amended): for any configuration pair whose diff succeeds, the
comparison is numeric on both shapes: a variable whose `method` and
`quarters` are unchanged and whose `input` is numerically equal — such as a
`single_value_fill` scalar changed from `0` to `0.0`, or a
`quarterly_values_fill` sequence changed from `[0, 0]` to `[0.0, 0]` — is
absent from the changed set, and a variable appears in the changed set only
when its `method` or `quarters` changed or its `input` differs numerically
(different shape, different length, or some element numerically different). -/
theorem get_changed_variables_numeric_comparison
    (current original : Config) (res : List String)
    (h : get_changed_variables current original = .ok res) :
    (∀ n curr orig, (current.map Prod.fst).Nodup →
      (n, curr) ∈ current → lookupVar original n = some orig →
      curr.method = orig.method → curr.quarters = orig.quarters →
      inputNumEq curr.input orig.input → n ∉ res) ∧
    (∀ n, n ∈ res → ∃ curr orig, (n, curr) ∈ current ∧ lookupVar original n = some orig ∧
      ¬(curr.method = orig.method ∧ curr.quarters = orig.quarters ∧
        inputNumEq curr.input orig.input)) := by
  have hdet := get_changed_variables_mem_spec current original res h
  constructor
  · intro n curr orig hnd hmem hlook hmeq hqeq hneq hin
    obtain ⟨curr', orig', hmem', hlook', hcnd⟩ := hdet n hin
    have hcurr : lookupVar current n = some curr := lookupVar_self_of_nodup current n curr hmem hnd
    have hcurr' : lookupVar current n = some curr' :=
      lookupVar_self_of_nodup current n curr' hmem' hnd
    have hceq : curr = curr' := Option.some.inj (hcurr.symm.trans hcurr')
    have hoeq : orig = orig' := Option.some.inj (hlook.symm.trans hlook')
    subst hceq
    subst hoeq
    rcases hcnd with hc | hc | hc
    · exact hc hmeq
    · exact hc hqeq
    · rw [inputChanged_false_of_numEq _ _ hneq] at hc
      simp at hc
  · intro n hin
    obtain ⟨curr, orig, hmem, hlook, hcnd⟩ := hdet n hin
    refine ⟨curr, orig, hmem, hlook, ?_⟩
    rintro ⟨hmeq, hqeq, hneq⟩
    rcases hcnd with hc | hc | hc
    · exact hc hmeq
    · exact hc hqeq
    · rw [inputChanged_false_of_numEq _ _ hneq] at hc
      simp at hc

theorem get_changed_variables_numeric_comparison_witness :
    get_changed_variables
      [("S", ⟨"c", "single_value_fill", .num (.float 0), none⟩),
       ("Q", ⟨"c", "quarterly_values_fill", .list [.float 0, .int 0], some "2024Q1:2024Q2"⟩)]
      [("S", ⟨"c", "single_value_fill", .num (.int 0), none⟩),
       ("Q", ⟨"c", "quarterly_values_fill", .list [.int 0, .int 0], some "2024Q1:2024Q2"⟩)] =
      .ok [] ∧
    ("S" : String) ∉ ([] : List String) ∧ ("Q" : String) ∉ ([] : List String) :=
  ⟨rfl,
    (get_changed_variables_numeric_comparison
      [("S", ⟨"c", "single_value_fill", .num (.float 0), none⟩),
       ("Q", ⟨"c", "quarterly_values_fill", .list [.float 0, .int 0], some "2024Q1:2024Q2"⟩)]
      [("S", ⟨"c", "single_value_fill", .num (.int 0), none⟩),
       ("Q", ⟨"c", "quarterly_values_fill", .list [.int 0, .int 0], some "2024Q1:2024Q2"⟩)]
      [] rfl).1 "S"
      ⟨"c", "single_value_fill", .num (.float 0), none⟩
      ⟨"c", "single_value_fill", .num (.int 0), none⟩
      (by decide) (by decide) (by decide) rfl rfl
      (by show (PyNum.float 0).toFloat = (PyNum.int 0).toFloat; decide),
    (get_changed_variables_numeric_comparison
      [("S", ⟨"c", "single_value_fill", .num (.float 0), none⟩),
       ("Q", ⟨"c", "quarterly_values_fill", .list [.float 0, .int 0], some "2024Q1:2024Q2"⟩)]
      [("S", ⟨"c", "single_value_fill", .num (.int 0), none⟩),
       ("Q", ⟨"c", "quarterly_values_fill", .list [.int 0, .int 0], some "2024Q1:2024Q2"⟩)]
      [] rfl).1 "Q"
      ⟨"c", "quarterly_values_fill", .list [.float 0, .int 0], some "2024Q1:2024Q2"⟩
      ⟨"c", "quarterly_values_fill", .list [.int 0, .int 0], some "2024Q1:2024Q2"⟩
      (by decide) (by decide) (by decide) rfl rfl ⟨rfl, by decide⟩⟩

/-- Claim C8 (counterexample): the input `"2024X3"` does not match
`^\d{4}Q[1-4]$`, yet `quarter_to_date` accepts it and returns the July-1
datetime of 2024: the separator character at index 4 is never examined, so
`parseLabel` does not fail for every non-matching input. -/
theorem quarter_to_date_no_separator_check :
    matchesLabel "2024X3" = false ∧ quarter_to_date "2024X3" = .ok ⟨2024, 7⟩ := by
  constructor <;> decide

/-- Claim C8 (amended): `quarter_to_date` does fail for each of the four
listed inputs (`"2024"` by `IndexError`, the others by `ValueError`), but not
for every input failing the regex — the character at position 4 is unchecked
(see the counterexample `"2024X3"`). -/
theorem quarter_to_date_invalid_inputs :
    quarter_to_date "2024" = .error .indexError ∧
    quarter_to_date "Q12024" = .error .valueError ∧
    quarter_to_date "2024Q5" = .error .valueError ∧
    quarter_to_date "abcdQ1" = .error .valueError := by
  refine ⟨by decide, by decide, by decide, by decide⟩

/-- Claim C4 (counterexample): when the baseline specification file does not
exist, `load_spec_file` does not fail — it displays an error message and
returns an empty configuration. -/
theorem load_spec_file_missing_returns_empty :
    load_spec_file none =
      .ok ([], ["Baseline specification (dummy_spec.json) not found!"]) := rfl

/-- Claim C4 (amended): on a missing baseline file `load_spec_file` reports
the error to the UI and returns the empty configuration instead of failing;
a JSON decode error propagates as an uncaught exception; and any
configuration that parses is returned as-is — no record-level validation of
`category`/`method`/`input` or of the VariableSpec invariant is performed. -/
theorem load_spec_file_spec :
    load_spec_file none =
      .ok ([], ["Baseline specification (dummy_spec.json) not found!"]) ∧
    (∀ cfg : Config, load_spec_file (some (.ok cfg)) = .ok (cfg, [])) ∧
    (∀ e : PyError, load_spec_file (some (.error e)) = .error e) :=
  ⟨rfl, fun _ => rfl, fun _ => rfl⟩

/-- Claim C5: `save_final_config` writes the committed configuration to the
timestamp-named artifact `config_<timestamp>.json` and removes the snapshot
file exactly when the write succeeded; on a write failure the snapshot file
is left as it was, the error is displayed, and `None` is returned. -/
theorem save_final_config_spec :
    ∀ (timestamp msg : String) (tempExists : Bool),
      save_final_config none timestamp tempExists =
        ⟨some ("config_" ++ timestamp ++ ".json"),
         some ("config_" ++ timestamp ++ ".json"), false, []⟩ ∧
      save_final_config (some msg) timestamp tempExists =
        ⟨none, none, tempExists, ["Error saving configuration: " ++ msg]⟩ :=
  fun _ _ _ => ⟨rfl, rfl⟩

/-- Claim C6: when the snapshot file exists but is not valid JSON,
`check_for_temp_file` removes the corrupt file, shows no prompt, and returns
normally with `None`, so the session seeds both `data` and `original_data`
from the configuration store (the `Fresh` state) — regardless of any prior
session state or button events. -/
theorem corrupt_snapshot_recovers :
    ∀ (e : PyError) (sp : Option Bool) (clickLoad clickFresh : Bool)
      (td : Option (Option Config)) (spec : Config),
      check_for_temp_file (some (.error e)) sp clickLoad clickFresh td =
        ⟨some none, true, false, sp, td⟩ ∧
      init_session (check_for_temp_file (some (.error e)) sp clickLoad clickFresh td).ret spec =
        some (spec, spec) :=
  fun _ _ _ _ _ _ => ⟨rfl, rfl⟩

/-! ## Quarter-codec lemmas -/

lemma char_digit_bounds (c : Char) (h : c.isDigit = true) :
    48 ≤ (c.toNat : Int) ∧ (c.toNat : Int) ≤ 57 := by
  simp [Char.isDigit, Char.le_def, UInt32.le_def, BitVec.le_def, decide_eq_true_eq] at h
  obtain ⟨h1, h2⟩ := h
  simp [Char.toNat, UInt32.toNat]
  omega

lemma dateLe_iff (a b : Date) (ha1 : 1 ≤ a.month) (ha2 : a.month ≤ 12)
    (hb1 : 1 ≤ b.month) (hb2 : b.month ≤ 12) :
    dateLe a b = true ↔ dtotal a ≤ dtotal b := by
  simp only [dateLe, dtotal, Bool.or_eq_true, Bool.and_eq_true, decide_eq_true_eq]
  omega

lemma qmonth_bounds (m : Int) (h : qmonth m) : 1 ≤ m ∧ m ≤ 12 := by
  rcases h with h | h | h | h <;> omega

lemma nextDate_ok (cur : Date) (h1 : qmonth cur.month) (hy1 : 1 ≤ cur.year)
    (hy2 : cur.year ≤ 9999) (hok : cur.year ≤ 9998 ∨ cur.month ≤ 7) :
    ∃ nxt, nextDate cur = .ok nxt ∧ qmonth nxt.month ∧ 1 ≤ nxt.year ∧ nxt.year ≤ 9999 ∧
      dtotal nxt = dtotal cur + 3 := by
  by_cases hroll : cur.month ≥ 10
  · have hm10 : cur.month = 10 := by rcases h1 with h | h | h | h <;> omega
    have hy3 : cur.year ≤ 9998 := by rcases hok with h' | h' <;> omega
    refine ⟨⟨cur.year + 1, 1⟩, ?_, Or.inl rfl,
      by show 1 ≤ cur.year + 1; omega, by show cur.year + 1 ≤ 9999; omega, ?_⟩
    · rw [nextDate, if_pos hroll, datetime, if_pos]
      exact ⟨by omega, by omega, by omega, by omega⟩
    · show (cur.year + 1) * 12 + 1 = cur.year * 12 + cur.month + 3
      omega
  · refine ⟨⟨cur.year, cur.month + 3⟩, ?_, ?_, hy1, hy2, ?_⟩
    · rw [nextDate, if_neg hroll, datetime, if_pos]
      have := qmonth_bounds cur.month h1
      exact ⟨hy1, hy2, by omega, by omega⟩
    · show qmonth (cur.month + 3)
      unfold qmonth
      rcases h1 with h | h | h | h <;> omega
    · show cur.year * 12 + (cur.month + 3) = cur.year * 12 + cur.month + 3
      omega

lemma qloopF_nil (fuel : Nat) (e cur : Date) (hc1 : 1 ≤ cur.month) (hc2 : cur.month ≤ 12)
    (he1 : 1 ≤ e.month) (he2 : e.month ≤ 12) (hlt : dtotal e < dtotal cur) :
    qloopF fuel e cur = .ok [] := by
  cases fuel with
  | zero => rfl
  | succ fuel =>
    have hg : dateLe cur e = false := by
      cases hb : dateLe cur e
      · rfl
      · exact absurd ((dateLe_iff cur e hc1 hc2 he1 he2).1 hb) (by omega)
    simp [qloopF, hg]

lemma nextDate_bounds (cur : Date) (nxt : Date) (hcm : cur.month ≤ 12)
    (h : nextDate cur = .ok nxt) :
    1 ≤ nxt.month ∧ nxt.month ≤ 12 ∧ dtotal cur < dtotal nxt ∧ dtotal nxt ≤ dtotal cur + 3 := by
  rw [nextDate] at h
  split at h
  · rename_i hroll
    rw [datetime] at h
    split at h
    · rename_i hcond
      injection h with h
      subst h
      refine ⟨by show (1:Int) ≤ 1; omega, by show (1:Int) ≤ 12; omega, ?_, ?_⟩
      · show cur.year * 12 + cur.month < (cur.year + 1) * 12 + 1
        omega
      · show (cur.year + 1) * 12 + 1 ≤ cur.year * 12 + cur.month + 3
        omega
    · cases h
  · rename_i hroll
    rw [datetime] at h
    split at h
    · rename_i hcond
      injection h with h
      subst h
      refine ⟨?_, ?_, ?_, ?_⟩
      · show 1 ≤ cur.month + 3
        omega
      · show cur.month + 3 ≤ 12
        exact hcond.2.2.2
      · show cur.year * 12 + cur.month < cur.year * 12 + (cur.month + 3)
        omega
      · show cur.year * 12 + (cur.month + 3) ≤ cur.year * 12 + cur.month + 3
        omega
    · cases h

lemma qloopF_fuel_irrelevant (n : Nat) : ∀ (m : Nat) (e cur : Date),
    1 ≤ cur.month → cur.month ≤ 12 → 1 ≤ e.month → e.month ≤ 12 →
    fuelFor cur e ≤ n → fuelFor cur e ≤ m →
    qloopF n e cur = qloopF m e cur := by
  induction n with
  | zero =>
    intro m e cur hc1 hc2 he1 he2 hn _
    have hlt : dtotal e < dtotal cur := by
      simp only [fuelFor] at hn
      omega
    rw [qloopF_nil 0 e cur hc1 hc2 he1 he2 hlt, qloopF_nil m e cur hc1 hc2 he1 he2 hlt]
  | succ n ih =>
    intro m e cur hc1 hc2 he1 he2 hn hm
    by_cases hlt : dtotal e < dtotal cur
    · rw [qloopF_nil _ e cur hc1 hc2 he1 he2 hlt, qloopF_nil m e cur hc1 hc2 he1 he2 hlt]
    · push_neg at hlt
      have hg : dateLe cur e = true := (dateLe_iff cur e hc1 hc2 he1 he2).2 hlt
      have hm1 : 1 ≤ m := by
        simp only [fuelFor] at hm
        omega
      obtain ⟨m', rfl⟩ : ∃ m', m = m' + 1 := ⟨m - 1, by omega⟩
      simp only [qloopF, hg, if_true]
      cases hnx : nextDate cur with
      | error err => rfl
      | ok nxt =>
        obtain ⟨h1, h2, h3, h4⟩ := nextDate_bounds cur nxt hc2 hnx
        have hrec := ih m' e nxt h1 h2 he1 he2
          (by simp only [fuelFor] at hn ⊢; omega) (by simp only [fuelFor] at hm ⊢; omega)
        simp only [hrec]

lemma qloopF_ok (fuel : Nat) : ∀ (e cur : Date),
    qmonth cur.month → qmonth e.month →
    1 ≤ cur.year → e.year ≤ 9999 →
    dtotal cur ≤ dtotal e → ¬(e.year = 9999 ∧ e.month = 10) →
    fuelFor cur e ≤ fuel →
    ∃ l, qloopF fuel e cur = .ok l ∧ 3 * ((l.length : Int) - 1) = dtotal e - dtotal cur := by
  induction fuel with
  | zero =>
    intro e cur _ _ _ _ hle _ hfuel
    exfalso
    simp only [fuelFor] at hfuel
    omega
  | succ fuel ih =>
    intro e cur hqc hqe hcy hey hle hne hfuel
    obtain ⟨hcm1, hcm2⟩ := qmonth_bounds cur.month hqc
    obtain ⟨hem1, hem2⟩ := qmonth_bounds e.month hqe
    have hcy2 : cur.year ≤ 9999 := by
      simp only [dtotal] at hle
      omega
    have hg : dateLe cur e = true := (dateLe_iff cur e hcm1 hcm2 hem1 hem2).2 hle
    have hem10 : e.month ≤ 10 := by rcases hqe with h | h | h | h <;> omega
    have hok : cur.year ≤ 9998 ∨ cur.month ≤ 7 := by
      by_contra hcon
      push_neg at hcon
      obtain ⟨hc1, hc2⟩ := hcon
      have hm10 : cur.month = 10 := by rcases hqc with h | h | h | h <;> omega
      apply hne
      simp only [dtotal] at hle
      constructor <;> omega
    obtain ⟨nxt, hnxt, hqn, hny, hny2, hdt⟩ := nextDate_ok cur hqc hcy hcy2 hok
    by_cases hstep : dtotal nxt ≤ dtotal e
    · obtain ⟨l, hl, hlen⟩ := ih e nxt hqn hqe hny hey hstep hne
        (by simp only [fuelFor] at hfuel ⊢; omega)
      refine ⟨quarterLabel cur :: l, ?_, ?_⟩
      · simp only [qloopF, hg, if_true, hnxt, hl]
      · simp only [List.length_cons]
        push_cast
        omega
    · have h3 : (dtotal e - dtotal cur) % 3 = 0 := by
        rcases hqc with h | h | h | h <;> rcases hqe with h' | h' | h' | h' <;>
          (simp only [dtotal]; omega)
      have hEC : dtotal e = dtotal cur := by omega
      obtain ⟨hnm1, hnm2⟩ := qmonth_bounds nxt.month hqn
      have hnil : qloopF fuel e nxt = .ok [] :=
        qloopF_nil fuel e nxt hnm1 hnm2 hem1 hem2 (by omega)
      refine ⟨[quarterLabel cur], ?_, ?_⟩
      · simp only [qloopF, hg, if_true, hnxt, hnil]
      · simp only [List.length_singleton]
        omega

lemma qloopF_overflow (fuel : Nat) : ∀ (e cur : Date),
    qmonth cur.month → 1 ≤ cur.year → e.year = 9999 → e.month = 10 →
    dtotal cur ≤ dtotal e → fuelFor cur e ≤ fuel →
    qloopF fuel e cur = .error .valueError := by
  induction fuel with
  | zero =>
    intro e cur _ _ _ _ hle hf
    exfalso
    simp only [fuelFor] at hf
    omega
  | succ fuel ih =>
    intro e cur hqc hcy he1 he2 hle hf
    obtain ⟨hcm1, hcm2⟩ := qmonth_bounds cur.month hqc
    have hg : dateLe cur e = true :=
      (dateLe_iff cur e hcm1 hcm2 (by omega) (by omega)).2 hle
    by_cases hcur : cur.year = 9999 ∧ cur.month = 10
    · have hnxt : nextDate cur = .error .valueError := by
        rw [nextDate, if_pos (by omega), datetime, if_neg (by omega)]
      simp only [qloopF, hg, if_true, hnxt]
    · have hcy2 : cur.year ≤ 9999 := by
        simp only [dtotal] at hle
        omega
      have hok : cur.year ≤ 9998 ∨ cur.month ≤ 7 := by
        rcases hqc with h | h | h | h <;> omega
      obtain ⟨nxt, hnxt, hqn, hny, hny2, hdt⟩ := nextDate_ok cur hqc hcy hcy2 hok
      have h3 : (dtotal e - dtotal cur) % 3 = 0 := by
        rcases hqc with h | h | h | h <;> (simp only [dtotal, he2]; omega)
      have hlt : dtotal cur < dtotal e := by
        simp only [dtotal] at hle ⊢
        omega
      have hrec : qloopF fuel e nxt = .error .valueError :=
        ih e nxt hqn hny he1 he2 (by omega) (by simp only [fuelFor] at hf ⊢; omega)
      simp only [qloopF, hg, if_true, hnxt, hrec]

lemma pyIntChars_digits4 (a b c d : Char) (ha : a.isDigit = true) (hb : b.isDigit = true)
    (hc : c.isDigit = true) (hd : d.isDigit = true) :
    pyIntChars [a, b, c, d] = some (digitsVal [a, b, c, d]) ∧
    0 ≤ digitsVal [a, b, c, d] ∧ digitsVal [a, b, c, d] ≤ 9999 := by
  obtain ⟨ha1, ha2⟩ := char_digit_bounds a ha
  obtain ⟨hb1, hb2⟩ := char_digit_bounds b hb
  obtain ⟨hc1, hc2⟩ := char_digit_bounds c hc
  obtain ⟨hd1, hd2⟩ := char_digit_bounds d hd
  have hdash : (('-' : Char).toNat : Int) = 45 := by decide
  have hna : a ≠ '-' := by
    intro hcon
    rw [hcon] at ha1
    omega
  refine ⟨?_, ?_, ?_⟩
  · rw [pyIntChars, if_neg (by simp [hna]), if_pos (by simp [ha, hb, hc, hd])]
  · simp only [digitsVal, List.foldl, charDigit]
    omega
  · simp only [digitsVal, List.foldl, charDigit]
    omega

lemma quarter_to_dateL_spec (l : List Char) (h : matchesLabelL l = true) :
    ∃ y q c, pyIntChars (l.take 4) = some y ∧ l.get? 5 = some c ∧ pyIntChars [c] = some q ∧
      0 ≤ y ∧ y ≤ 9999 ∧ 1 ≤ q ∧ q ≤ 4 ∧
      quarter_to_dateL l =
        (if 1 ≤ y then .ok ⟨y, (q - 1) * 3 + 1⟩ else .error .valueError) := by
  rcases l with _ | ⟨a, _ | ⟨b, _ | ⟨c, _ | ⟨d, _ | ⟨e5, _ | ⟨n6, _ | ⟨x, rest⟩⟩⟩⟩⟩⟩⟩
  · exact Bool.noConfusion h
  · exact Bool.noConfusion h
  · exact Bool.noConfusion h
  · exact Bool.noConfusion h
  · exact Bool.noConfusion h
  · exact Bool.noConfusion h
  case cons.cons.cons.cons.cons.cons.nil =>
    simp only [matchesLabelL, Bool.and_eq_true, Bool.or_eq_true, decide_eq_true_eq] at h
    obtain ⟨⟨⟨⟨⟨ha, hb⟩, hc⟩, hd⟩, hq5⟩, hn6⟩ := h
    subst hq5
    obtain ⟨hpy, hy0, hy9⟩ := pyIntChars_digits4 a b c d ha hb hc hd
    have htake : [a, b, c, d, 'Q', n6].take 4 = [a, b, c, d] := rfl
    rcases hn6 with ((h1 | h1) | h1) | h1 <;> subst h1
    · have hg5 : [a, b, c, d, 'Q', '1'].get? 5 = some '1' := rfl
      have hqv : pyIntChars ['1'] = some (1 : Int) := by decide
      refine ⟨digitsVal [a, b, c, d], 1, '1', by rw [htake]; exact hpy, hg5, hqv,
        hy0, hy9, by omega, by omega, ?_⟩
      simp only [quarter_to_dateL, htake, hpy, hg5, hqv]
      rw [datetime]
      by_cases hy : 1 ≤ digitsVal [a, b, c, d]
      · rw [if_pos ⟨hy, hy9, by omega, by omega⟩, if_pos hy]
      · rw [if_neg (fun hcon => hy hcon.1), if_neg hy]
    · have hg5 : [a, b, c, d, 'Q', '2'].get? 5 = some '2' := rfl
      have hqv : pyIntChars ['2'] = some (2 : Int) := by decide
      refine ⟨digitsVal [a, b, c, d], 2, '2', by rw [htake]; exact hpy, hg5, hqv,
        hy0, hy9, by omega, by omega, ?_⟩
      simp only [quarter_to_dateL, htake, hpy, hg5, hqv]
      rw [datetime]
      by_cases hy : 1 ≤ digitsVal [a, b, c, d]
      · rw [if_pos ⟨hy, hy9, by omega, by omega⟩, if_pos hy]
      · rw [if_neg (fun hcon => hy hcon.1), if_neg hy]
    · have hg5 : [a, b, c, d, 'Q', '3'].get? 5 = some '3' := rfl
      have hqv : pyIntChars ['3'] = some (3 : Int) := by decide
      refine ⟨digitsVal [a, b, c, d], 3, '3', by rw [htake]; exact hpy, hg5, hqv,
        hy0, hy9, by omega, by omega, ?_⟩
      simp only [quarter_to_dateL, htake, hpy, hg5, hqv]
      rw [datetime]
      by_cases hy : 1 ≤ digitsVal [a, b, c, d]
      · rw [if_pos ⟨hy, hy9, by omega, by omega⟩, if_pos hy]
      · rw [if_neg (fun hcon => hy hcon.1), if_neg hy]
    · have hg5 : [a, b, c, d, 'Q', '4'].get? 5 = some '4' := rfl
      have hqv : pyIntChars ['4'] = some (4 : Int) := by decide
      refine ⟨digitsVal [a, b, c, d], 4, '4', by rw [htake]; exact hpy, hg5, hqv,
        hy0, hy9, by omega, by omega, ?_⟩
      simp only [quarter_to_dateL, htake, hpy, hg5, hqv]
      rw [datetime]
      by_cases hy : 1 ≤ digitsVal [a, b, c, d]
      · rw [if_pos ⟨hy, hy9, by omega, by omega⟩, if_pos hy]
      · rw [if_neg (fun hcon => hy hcon.1), if_neg hy]
  · exact Bool.noConfusion h

/-- Claim C3 (counterexample): for the valid labels `"9999Q4"` and `"0000Q1"`
(both match `^\d{4}Q[1-4]$`), `generate_quarters` raises `ValueError` instead
of returning a one-element sequence: advancing past 9999Q4 constructs
`datetime(10000, 1, 1)` (beyond `datetime.MAXYEAR`), and year 0000 is below
`datetime.MINYEAR`. -/
theorem generate_quarters_year_bounds_counterexample :
    matchesLabel "9999Q4" = true ∧ matchesLabel "0000Q1" = true ∧
    generate_quarters "9999Q4" "9999Q4" = .error .valueError ∧
    generate_quarters "0000Q1" "0000Q1" = .error .valueError := by
  refine ⟨by decide, by decide, by decide, by decide⟩

/-- Claim C3 (amended): for all valid quarter labels whose year is at least
0001, `expandRange(start, end)` returns a sequence whose length equals the
integer quarter-distance from start to end plus one when `start <= end` and
`end` is not `9999Q4`, and returns an empty sequence, not an error, when
`end` precedes `start`.  (The exclusions are forced: year-0000 labels and
advancing past `9999Q4` hit the `datetime` year bounds and raise
`ValueError` — see the counterexample.) -/
theorem generate_quarters_spec (s e : String)
    (hs : matchesLabel s = true) (he : matchesLabel e = true)
    (hys : 1 ≤ labelYear s) (hye : 1 ≤ labelYear e)
    (hend : ¬(labelYear e = 9999 ∧ labelQuarter e = 4)) :
    (quarterIdx s ≤ quarterIdx e →
      ∃ l, generate_quarters s e = .ok l ∧
        (l.length : Int) = quarterIdx e - quarterIdx s + 1) ∧
    (quarterIdx e < quarterIdx s → generate_quarters s e = .ok []) := by
  obtain ⟨ys, qs, cs, hpys, hgs, hqys, hy0s, hy9s, hq1s, hq4s, hqds⟩ :=
    quarter_to_dateL_spec s.toList hs
  obtain ⟨ye, qe, ce, hpye, hge, hqye, hy0e, hy9e, hq1e, hq4e, hqde⟩ :=
    quarter_to_dateL_spec e.toList he
  have hLs : labelYear s = ys := by simp only [labelYear, hpys, Option.getD_some]
  have hLe : labelYear e = ye := by simp only [labelYear, hpye, Option.getD_some]
  have hQs : labelQuarter s = qs := by simp only [labelQuarter, hgs, hqys, Option.getD_some]
  have hQe : labelQuarter e = qe := by simp only [labelQuarter, hge, hqye, Option.getD_some]
  rw [hLs] at hys
  rw [hLe] at hye
  have hds : quarter_to_date s = .ok ⟨ys, (qs - 1) * 3 + 1⟩ := by
    rw [quarter_to_date, hqds, if_pos hys]
  have hde : quarter_to_date e = .ok ⟨ye, (qe - 1) * 3 + 1⟩ := by
    rw [quarter_to_date, hqde, if_pos hye]
  have hqms : qmonth ((⟨ys, (qs - 1) * 3 + 1⟩ : Date).month) := by
    show qmonth ((qs - 1) * 3 + 1)
    unfold qmonth
    omega
  have hqme : qmonth ((⟨ye, (qe - 1) * 3 + 1⟩ : Date).month) := by
    show qmonth ((qe - 1) * 3 + 1)
    unfold qmonth
    omega
  have hIdxS : dtotal ⟨ys, (qs - 1) * 3 + 1⟩ = 3 * quarterIdx s + 1 := by
    rw [quarterIdx, hLs, hQs]
    show ys * 12 + ((qs - 1) * 3 + 1) = 3 * (4 * ys + (qs - 1)) + 1
    ring
  have hIdxE : dtotal ⟨ye, (qe - 1) * 3 + 1⟩ = 3 * quarterIdx e + 1 := by
    rw [quarterIdx, hLe, hQe]
    show ye * 12 + ((qe - 1) * 3 + 1) = 3 * (4 * ye + (qe - 1)) + 1
    ring
  constructor
  · intro hle
    have hdle : dtotal ⟨ys, (qs - 1) * 3 + 1⟩ ≤ dtotal ⟨ye, (qe - 1) * 3 + 1⟩ := by
      rw [hIdxS, hIdxE]
      omega
    have hne : ¬((⟨ye, (qe - 1) * 3 + 1⟩ : Date).year = 9999 ∧
        (⟨ye, (qe - 1) * 3 + 1⟩ : Date).month = 10) := by
      intro hpair
      have h1 : ye = 9999 := hpair.1
      have h2 : (qe - 1) * 3 + 1 = 10 := hpair.2
      apply hend
      rw [hLe, hQe]
      exact ⟨h1, by omega⟩
    obtain ⟨l, hrun, hlen⟩ := qloopF_ok
      (fuelFor ⟨ys, (qs - 1) * 3 + 1⟩ ⟨ye, (qe - 1) * 3 + 1⟩)
      ⟨ye, (qe - 1) * 3 + 1⟩ ⟨ys, (qs - 1) * 3 + 1⟩
      hqms hqme (by show 1 ≤ ys; omega) (by show ye ≤ 9999; omega) hdle hne (le_refl _)
    refine ⟨l, ?_, ?_⟩
    · simp only [generate_quarters, hds, hde]
      exact hrun
    · rw [hIdxS, hIdxE] at hlen
      omega
  · intro hlt
    have hdlt : dtotal ⟨ye, (qe - 1) * 3 + 1⟩ < dtotal ⟨ys, (qs - 1) * 3 + 1⟩ := by
      rw [hIdxS, hIdxE]
      omega
    obtain ⟨hm1, hm2⟩ := qmonth_bounds _ hqms
    obtain ⟨hm3, hm4⟩ := qmonth_bounds _ hqme
    have hnil := qloopF_nil (fuelFor ⟨ys, (qs - 1) * 3 + 1⟩ ⟨ye, (qe - 1) * 3 + 1⟩)
      ⟨ye, (qe - 1) * 3 + 1⟩ ⟨ys, (qs - 1) * 3 + 1⟩ hm1 hm2 hm3 hm4 hdlt
    simp only [generate_quarters, hds, hde]
    exact hnil

theorem generate_quarters_spec_witness :
    matchesLabel "2024Q1" = true ∧ matchesLabel "2024Q4" = true ∧
    1 ≤ labelYear "2024Q1" ∧ 1 ≤ labelYear "2024Q4" ∧
    ¬(labelYear "2024Q4" = 9999 ∧ labelQuarter "2024Q4" = 4) ∧
    quarterIdx "2024Q1" ≤ quarterIdx "2024Q4" ∧
    ∃ l, generate_quarters "2024Q1" "2024Q4" = .ok l ∧
      (l.length : Int) = quarterIdx "2024Q4" - quarterIdx "2024Q1" + 1 :=
  ⟨by decide, by decide, by decide, by decide, by decide, by decide,
    (generate_quarters_spec "2024Q1" "2024Q4" (by decide) (by decide) (by decide)
      (by decide) (by decide)).1 (by decide)⟩

/-! ## Batch-mutator lemmas -/

lemma updateVar_cons (k : String) (v : VarDataH) (rest : ConfigH) (n : String)
    (f : VarDataH → VarDataH) :
    updateVar ((k, v) :: rest) n f =
      (if k = n then (k, f v) else (k, v)) :: updateVar rest n f := by
  by_cases hk : k = n <;> simp [updateVar, hk]

lemma lookupVarH_updateVar_ne (d : ConfigH) (n m : String) (f : VarDataH → VarDataH)
    (h : m ≠ n) : lookupVarH (updateVar d n f) m = lookupVarH d m := by
  induction d with
  | nil => rfl
  | cons p rest ih =>
    obtain ⟨k, v⟩ := p
    rw [updateVar_cons]
    by_cases hk : k = n
    · rw [if_pos hk]
      have hkm : ¬k = m := fun he => h (he.symm.trans hk)
      simp only [lookupVarH, if_neg hkm]
      exact ih
    · rw [if_neg hk]
      simp only [lookupVarH]
      by_cases hkm : k = m
      · rw [if_pos hkm, if_pos hkm]
      · rw [if_neg hkm, if_neg hkm]
        exact ih

lemma lookupVarH_updateVar_self (d : ConfigH) (n : String) (f : VarDataH → VarDataH)
    (vd : VarDataH) (h : lookupVarH d n = some vd) :
    lookupVarH (updateVar d n f) n = some (f vd) := by
  induction d with
  | nil => cases h
  | cons p rest ih =>
    obtain ⟨k, v⟩ := p
    by_cases hk : k = n
    · rw [updateVar_cons, if_pos hk]
      simp only [lookupVarH, if_pos hk] at h ⊢
      injection h with h
      rw [h]
    · rw [updateVar_cons, if_neg hk]
      simp only [lookupVarH, if_neg hk] at h ⊢
      exact ih h

lemma getCell_setElem_ne (h : Heap) (r1 r2 i : Nat) (v : PyNum) (hne : r1 ≠ r2) :
    (h.setElem r1 i v).getCell r2 = h.getCell r2 := by
  simp only [Heap.setElem, Heap.getCell, List.getD, List.get?_eq_getElem?]
  rw [List.getElem?_set_ne hne]

lemma apply_cons_ok (settings : Settings) (hm : settings.method ≠ "single_value_fill")
    (var_name : String) (rest : List String) (d : ConfigH) (h : Heap)
    (d2 : ConfigH) (h2 : Heap)
    (heq : apply_settings_to_variables (var_name :: rest) settings d h = .ok (d2, h2)) :
    ∃ vd payload, lookupVarH d var_name = some vd ∧
      derefInput h settings.input = .ok payload ∧
      apply_settings_to_variables rest settings
        (updateVar d var_name fun vd =>
          ⟨vd.category, settings.method, .listRef h.cells.length, settings.quarters⟩)
        ⟨h.cells ++ [payload]⟩ = .ok (d2, h2) := by
  simp only [apply_settings_to_variables, Heap.alloc] at heq
  split at heq
  · cases heq
  · rename_i vd hvd
    rw [if_neg hm] at heq
    split at heq
    · cases heq
    · rename_i payload hpay
      exact ⟨vd, payload, hvd, hpay, heq⟩

lemma apply_quarterly_spec (settings : Settings) (hm : settings.method ≠ "single_value_fill") :
    ∀ (sel : List String) (d : ConfigH) (h : Heap) (d2 : ConfigH) (h2 : Heap),
      apply_settings_to_variables sel settings d h = .ok (d2, h2) →
      h.cells.length ≤ h2.cells.length ∧
      (∀ n, n ∉ sel → lookupVarH d2 n = lookupVarH d n) ∧
      (∀ n, n ∈ sel → ∃ r, (lookupVarH d2 n).map VarDataH.input = some (.listRef r) ∧
        h.cells.length ≤ r ∧ r < h2.cells.length) := by
  intro sel
  induction sel with
  | nil =>
    intro d h d2 h2 heq
    simp only [apply_settings_to_variables, Except.ok.injEq, Prod.mk.injEq] at heq
    obtain ⟨rfl, rfl⟩ := heq
    exact ⟨le_refl _, fun n _ => rfl, fun n hn => absurd hn (List.not_mem_nil n)⟩
  | cons name rest ih =>
    intro d h d2 h2 heq
    obtain ⟨vd, payload, hvd, hpay, hrec⟩ := apply_cons_ok settings hm name rest d h d2 h2 heq
    obtain ⟨ha, hb, hc⟩ := ih _ _ _ _ hrec
    have hlen : (⟨h.cells ++ [payload]⟩ : Heap).cells.length = h.cells.length + 1 := by
      simp
    rw [hlen] at ha
    refine ⟨by omega, ?_, ?_⟩
    · intro n hn
      have hn1 : n ≠ name := fun he => hn (he ▸ List.mem_cons_self _ _)
      have hn2 : n ∉ rest := fun he => hn (List.mem_cons_of_mem _ he)
      rw [hb n hn2, lookupVarH_updateVar_ne d name n _ hn1]
    · intro n hn
      by_cases hnr : n ∈ rest
      · obtain ⟨r, h1, h2', h3⟩ := hc n hnr
        rw [hlen] at h2'
        exact ⟨r, h1, by omega, h3⟩
      · have hne : n = name := by
          rcases List.mem_cons.mp hn with h' | h'
          · exact h'
          · exact absurd h' hnr
        subst hne
        rw [hb n hnr]
        rw [lookupVarH_updateVar_self d n _ vd hvd]
        exact ⟨h.cells.length, rfl, le_refl _, by omega⟩

/-- Claim C7: for every list of selected names and every settings payload
whose method is `quarterly_values_fill`, `apply_settings_to_variables` gives
each selected variable a freshly allocated copy of the input sequence: any
two distinct selected names `A` and `B` end up holding references to
distinct heap cells, so an in-place element assignment to `A`'s list leaves
`B`'s list unchanged (and vice versa). -/
theorem apply_settings_independent_copies :
    ∀ (selected : List String) (settings : Settings) (data : ConfigH) (h : Heap)
      (A B : String) (data2 : ConfigH) (h2 : Heap),
      settings.method = "quarterly_values_fill" →
      A ∈ selected → B ∈ selected → A ≠ B →
      apply_settings_to_variables selected settings data h = .ok (data2, h2) →
      ∃ rA rB, (lookupVarH data2 A).map VarDataH.input = some (.listRef rA) ∧
        (lookupVarH data2 B).map VarDataH.input = some (.listRef rB) ∧ rA ≠ rB ∧
        ∀ i v, (h2.setElem rA i v).getCell rB = h2.getCell rB ∧
          (h2.setElem rB i v).getCell rA = h2.getCell rA := by
  intro selected
  induction selected with
  | nil =>
    intro _ _ _ _ _ _ _ _ hA
    exact absurd hA (List.not_mem_nil _)
  | cons name rest ih =>
    intro settings data h A B data2 h2 hq hA hB hAB heq
    have hm : settings.method ≠ "single_value_fill" := by
      rw [hq]
      decide
    obtain ⟨vd, payload, hvd, hpay, hrec⟩ := apply_cons_ok settings hm name rest data h data2 h2 heq
    have hlen : (⟨h.cells ++ [payload]⟩ : Heap).cells.length = h.cells.length + 1 := by
      simp
    by_cases hAr : A ∈ rest
    · by_cases hBr : B ∈ rest
      · exact ih settings _ _ A B data2 h2 hq hAr hBr hAB hrec
      · have hBn : B = name := by
          rcases List.mem_cons.mp hB with h' | h'
          · exact h'
          · exact absurd h' hBr
        subst hBn
        obtain ⟨ha, hb, hc⟩ := apply_quarterly_spec settings hm rest _ _ data2 h2 hrec
        rw [hlen] at ha
        obtain ⟨rA, hA1, hA2, hA3⟩ := hc A hAr
        rw [hlen] at hA2
        have hBlook : lookupVarH data2 B =
            some ⟨vd.category, settings.method, .listRef h.cells.length, settings.quarters⟩ := by
          rw [hb B hBr]
          exact lookupVarH_updateVar_self data B _ vd hvd
        have hne : rA ≠ h.cells.length := by omega
        refine ⟨rA, h.cells.length, hA1, by rw [hBlook]; rfl, hne, fun i v => ?_⟩
        exact ⟨getCell_setElem_ne h2 rA _ i v hne, getCell_setElem_ne h2 _ rA i v hne.symm⟩
    · have hAn : A = name := by
        rcases List.mem_cons.mp hA with h' | h'
        · exact h'
        · exact absurd h' hAr
      subst hAn
      have hBr : B ∈ rest := by
        rcases List.mem_cons.mp hB with h' | h'
        · exact absurd h'.symm hAB
        · exact h'
      obtain ⟨ha, hb, hc⟩ := apply_quarterly_spec settings hm rest _ _ data2 h2 hrec
      rw [hlen] at ha
      obtain ⟨rB, hB1, hB2, hB3⟩ := hc B hBr
      rw [hlen] at hB2
      have hAlook : lookupVarH data2 A =
          some ⟨vd.category, settings.method, .listRef h.cells.length, settings.quarters⟩ := by
        rw [hb A hAr]
        exact lookupVarH_updateVar_self data A _ vd hvd
      have hne : h.cells.length ≠ rB := by omega
      refine ⟨h.cells.length, rB, by rw [hAlook]; rfl, hB1, hne, fun i v => ?_⟩
      exact ⟨getCell_setElem_ne h2 _ rB i v hne, getCell_setElem_ne h2 rB _ i v hne.symm⟩

theorem apply_settings_independent_copies_witness :
    ("A" : String) ∈ (["A", "B"] : List String) ∧ ("B" : String) ∈ (["A", "B"] : List String) ∧
    ("A" : String) ≠ "B" ∧
    apply_settings_to_variables ["A", "B"]
      ⟨"quarterly_values_fill", .listRef 0, some "2024Q1:2024Q4"⟩
      [("A", ⟨"c", "single_value_fill", .num (.int 0), none⟩),
       ("B", ⟨"c", "single_value_fill", .num (.int 0), none⟩)]
      ⟨[[.int 1, .int 2, .int 3, .int 4]]⟩ =
      .ok ([("A", ⟨"c", "quarterly_values_fill", .listRef 1, some "2024Q1:2024Q4"⟩),
            ("B", ⟨"c", "quarterly_values_fill", .listRef 2, some "2024Q1:2024Q4"⟩)],
           ⟨[[.int 1, .int 2, .int 3, .int 4], [.int 1, .int 2, .int 3, .int 4],
             [.int 1, .int 2, .int 3, .int 4]]⟩) ∧
    ∃ rA rB,
      (lookupVarH [("A", ⟨"c", "quarterly_values_fill", .listRef 1, some "2024Q1:2024Q4"⟩),
            ("B", ⟨"c", "quarterly_values_fill", .listRef 2, some "2024Q1:2024Q4"⟩)] "A").map
          VarDataH.input = some (.listRef rA) ∧
      (lookupVarH [("A", ⟨"c", "quarterly_values_fill", .listRef 1, some "2024Q1:2024Q4"⟩),
            ("B", ⟨"c", "quarterly_values_fill", .listRef 2, some "2024Q1:2024Q4"⟩)] "B").map
          VarDataH.input = some (.listRef rB) ∧ rA ≠ rB ∧
      ∀ i v,
        ((⟨[[.int 1, .int 2, .int 3, .int 4], [.int 1, .int 2, .int 3, .int 4],
            [.int 1, .int 2, .int 3, .int 4]]⟩ : Heap).setElem rA i v).getCell rB =
          (⟨[[.int 1, .int 2, .int 3, .int 4], [.int 1, .int 2, .int 3, .int 4],
             [.int 1, .int 2, .int 3, .int 4]]⟩ : Heap).getCell rB ∧
        ((⟨[[.int 1, .int 2, .int 3, .int 4], [.int 1, .int 2, .int 3, .int 4],
            [.int 1, .int 2, .int 3, .int 4]]⟩ : Heap).setElem rB i v).getCell rA =
          (⟨[[.int 1, .int 2, .int 3, .int 4], [.int 1, .int 2, .int 3, .int 4],
             [.int 1, .int 2, .int 3, .int 4]]⟩ : Heap).getCell rA :=
  ⟨by decide, by decide, by decide, by decide,
    apply_settings_independent_copies ["A", "B"]
      ⟨"quarterly_values_fill", .listRef 0, some "2024Q1:2024Q4"⟩
      [("A", ⟨"c", "single_value_fill", .num (.int 0), none⟩),
       ("B", ⟨"c", "single_value_fill", .num (.int 0), none⟩)]
      ⟨[[.int 1, .int 2, .int 3, .int 4]]⟩ "A" "B"
      [("A", ⟨"c", "quarterly_values_fill", .listRef 1, some "2024Q1:2024Q4"⟩),
       ("B", ⟨"c", "quarterly_values_fill", .listRef 2, some "2024Q1:2024Q4"⟩)]
      ⟨[[.int 1, .int 2, .int 3, .int 4], [.int 1, .int 2, .int 3, .int 4],
        [.int 1, .int 2, .int 3, .int 4]]⟩
      rfl (by decide) (by decide) (by decide) (by decide)⟩

end StreamlitApp
